import Mathlib

/-!
Verification development for the Secure Whisper backend.

The backend (server/index.js, Postgres variant, and the MongoDB variant)
is shallow-embedded here: byte strings are lists of naturals below 256,
the base64 codec used by Buffer(...).toString to store ciphertexts is an
executable Lean function, the AES-256-GCM primitive of node crypto is an
external collaborator modelled as a structure of functions together with
the contract the library guarantees, and each HTTP handler becomes a pure
function from its inputs and the database state to a response value.
-/

namespace SecureWhisper

/-! ## Base64 (model of Buffer base64 encode and decode) -/

/-- The base64 alphabet, in index order. -/
def b64chars : List Char :=
  ['A', 'B', 'C', 'D', 'E', 'F', 'G', 'H', 'I', 'J', 'K', 'L', 'M',
   'N', 'O', 'P', 'Q', 'R', 'S', 'T', 'U', 'V', 'W', 'X', 'Y', 'Z',
   'a', 'b', 'c', 'd', 'e', 'f', 'g', 'h', 'i', 'j', 'k', 'l', 'm',
   'n', 'o', 'p', 'q', 'r', 's', 't', 'u', 'v', 'w', 'x', 'y', 'z',
   '0', '1', '2', '3', '4', '5', '6', '7', '8', '9', '+', '/']

/-- Character for a six-bit group. -/
def encodeChar (n : Nat) : Char := b64chars.getD n '='

/-- Index of a base64 character, none for characters outside the alphabet. -/
def decodeChar (c : Char) : Option Nat := b64chars.findIdx? (fun x => x == c)

/-- Base64 encoding of a byte list, with padding, as Buffer.toString produces. -/
def b64encode : List Nat → List Char
  | [] => []
  | [a] => [encodeChar (a / 4), encodeChar (a % 4 * 16), '=', '=']
  | [a, b] => [encodeChar (a / 4), encodeChar (a % 4 * 16 + b / 16),
               encodeChar (b % 16 * 4), '=']
  | a :: b :: d :: rest =>
      encodeChar (a / 4) :: encodeChar (a % 4 * 16 + b / 16) ::
      encodeChar (b % 16 * 4 + d / 64) :: encodeChar (d % 64) :: b64encode rest

/-- Decode one final four-character base64 group, honouring padding. -/
def decodeGroup (c0 c1 c2 c3 : Char) : Option (List Nat) := do
  let s0 ← decodeChar c0
  let s1 ← decodeChar c1
  if c2 = '=' then
    if c3 = '=' then some [s0 * 4 + s1 / 16] else none
  else do
    let s2 ← decodeChar c2
    if c3 = '=' then some [s0 * 4 + s1 / 16, s1 % 16 * 16 + s2 / 4]
    else do
      let s3 ← decodeChar c3
      some [s0 * 4 + s1 / 16, s1 % 16 * 16 + s2 / 4, s2 % 4 * 64 + s3]

/-- Base64 decoding on well-formed inputs, as Buffer.from(str, base64). -/
def b64decode : List Char → Option (List Nat)
  | [] => some []
  | [c0, c1, c2, c3] => decodeGroup c0 c1 c2 c3
  | c0 :: c1 :: c2 :: c3 :: c4 :: rest => do
      let s0 ← decodeChar c0
      let s1 ← decodeChar c1
      let s2 ← decodeChar c2
      let s3 ← decodeChar c3
      let tl ← b64decode (c4 :: rest)
      some ((s0 * 4 + s1 / 16) :: (s1 % 16 * 16 + s2 / 4) :: (s2 % 4 * 64 + s3) :: tl)
  | _ => none

theorem decodeChar_encodeChar : ∀ n, n < 64 → decodeChar (encodeChar n) = some n := by
  decide

theorem encodeChar_ne_pad : ∀ n, n < 64 → encodeChar n ≠ '=' := by
  decide

theorem b64encode_shape (l : List Nat) (h : l ≠ []) :
    ∃ c0 c1 c2 c3 t, b64encode l = c0 :: c1 :: c2 :: c3 :: t := by
  cases l with
  | nil => exact absurd rfl h
  | cons a t =>
    cases t with
    | nil => exact ⟨_, _, _, _, _, rfl⟩
    | cons b t2 =>
      cases t2 with
      | nil => exact ⟨_, _, _, _, _, rfl⟩
      | cons d t3 => exact ⟨_, _, _, _, _, rfl⟩

theorem b64_roundtrip : ∀ l : List Nat, (∀ b ∈ l, b < 256) →
    b64decode (b64encode l) = some l := by
  intro l
  induction l using b64encode.induct with
  | case1 =>
    intro _
    rfl
  | case2 a =>
    intro hb
    have ha : a < 256 := hb a (by simp)
    have h0 := decodeChar_encodeChar (a / 4) (by omega)
    have h1 := decodeChar_encodeChar (a % 4 * 16) (by omega)
    simp [b64encode, b64decode, decodeGroup, h0, h1]
    omega
  | case3 a b =>
    intro hb
    have ha : a < 256 := hb a (by simp)
    have hb2 : b < 256 := hb b (by simp)
    have h0 := decodeChar_encodeChar (a / 4) (by omega)
    have h1 := decodeChar_encodeChar (a % 4 * 16 + b / 16) (by omega)
    have h2 := decodeChar_encodeChar (b % 16 * 4) (by omega)
    have hne := encodeChar_ne_pad (b % 16 * 4) (by omega)
    simp [b64encode, b64decode, decodeGroup, h0, h1, h2, hne]
    omega
  | case4 a b d rest ih =>
    intro hb
    have ha : a < 256 := hb a (by simp)
    have hb2 : b < 256 := hb b (by simp)
    have hd : d < 256 := hb d (by simp)
    have h0 := decodeChar_encodeChar (a / 4) (by omega)
    have h1 := decodeChar_encodeChar (a % 4 * 16 + b / 16) (by omega)
    have h2 := decodeChar_encodeChar (b % 16 * 4 + d / 64) (by omega)
    have h3 := decodeChar_encodeChar (d % 64) (by omega)
    have hrest : ∀ x ∈ rest, x < 256 := fun x hx => hb x (by simp [hx])
    have htl := ih hrest
    cases rest with
    | nil =>
      have hne2 := encodeChar_ne_pad (b % 16 * 4 + d / 64) (by omega)
      have hne3 := encodeChar_ne_pad (d % 64) (by omega)
      simp [b64encode, b64decode, decodeGroup, h0, h1, h2, h3, hne2, hne3]
      omega
    | cons r rs =>
      obtain ⟨e0, e1, e2, e3, t, hshape⟩ := b64encode_shape (r :: rs) (by simp)
      rw [hshape] at htl
      rw [show b64encode (a :: b :: d :: r :: rs) =
            encodeChar (a / 4) :: encodeChar (a % 4 * 16 + b / 16) ::
            encodeChar (b % 16 * 4 + d / 64) :: encodeChar (d % 64) ::
            b64encode (r :: rs) from rfl, hshape]
      simp [b64decode, h0, h1, h2, h3, htl]
      omega

/-! ## AES-256-GCM as an external collaborator

The node crypto primitive itself is outside the repository; it is modelled
as a structure bundling the cipher core with the contract the library
documents: a 16-byte tag (authTagLength 16), byte-valued outputs, and
decryption inverting encryption under the same key and IV.  The code of
encrypt and decrypt below — tag concatenation, base64 framing, and the
split of the trailing 16 bytes — is the code of server/index.js. -/

structure AEAD where
  enc : List Nat → List Nat → List Nat → List Nat × List Nat
  dec : List Nat → List Nat → List Nat → List Nat → Option (List Nat)
  enc_tag_len : ∀ k iv m, (enc k iv m).2.length = 16
  enc_ct_lt : ∀ k iv m, (∀ b ∈ m, b < 256) → ∀ b ∈ (enc k iv m).1, b < 256
  enc_tag_lt : ∀ k iv m, ∀ b ∈ (enc k iv m).2, b < 256
  dec_enc : ∀ k iv m, dec k iv (enc k iv m).1 (enc k iv m).2 = some m

/-- A concrete cipher satisfying the AEAD contract, used to evaluate the
handlers on concrete inputs. -/
def trivAEAD : AEAD where
  enc := fun _ _ m => (m, List.replicate 16 0)
  dec := fun _ _ ct tag => if tag = List.replicate 16 0 then some ct else none
  enc_tag_len := by intro k iv m; simp
  enc_ct_lt := by intro k iv m hm; exact hm
  enc_tag_lt := by
    intro k iv m b hb
    have := List.eq_of_mem_replicate hb
    omega
  dec_enc := by intro k iv m; simp

/-- The object returned by encrypt in server/index.js: base64 ciphertext
with the 16-byte tag appended, and the IV as base64. -/
structure EncryptedPayload where
  data : String
  iv : String

/-- encrypt of server/index.js: AES-256-GCM, ciphertext concatenated with
the auth tag, both base64; the fresh random IV is an input here because
randomBytes is an effect of the runtime. -/
def encrypt (A : AEAD) (key ivBytes text : List Nat) : EncryptedPayload :=
  { data := String.mk (b64encode ((A.enc key ivBytes text).1 ++ (A.enc key ivBytes text).2)),
    iv := String.mk (b64encode ivBytes) }

/-- decrypt of server/index.js: base64 decode, split the trailing 16 bytes
as the tag, verify and decrypt; none models the thrown error. -/
def decrypt (A : AEAD) (key : List Nat) (dataBase64 ivBase64 : String) : Option (List Nat) := do
  let iv ← b64decode ivBase64.toList
  let combined ← b64decode dataBase64.toList
  let tag := combined.drop (combined.length - 16)
  let encrypted := combined.take (combined.length - 16)
  A.dec key iv encrypted tag

/-- C4: for every byte string m, including the empty string and multi-byte
text, decrypt applied to the (ciphertextB64, ivB64) pair produced by
encrypt(m) under the same key returns m. -/
theorem message_roundtrip (A : AEAD) (key iv m : List Nat)
    (hm : ∀ b ∈ m, b < 256) (hiv : ∀ b ∈ iv, b < 256) :
    decrypt A key (encrypt A key iv m).data (encrypt A key iv m).iv = some m := by
  have hct := A.enc_ct_lt key iv m hm
  have htag := A.enc_tag_lt key iv m
  have hcomb : ∀ b ∈ (A.enc key iv m).1 ++ (A.enc key iv m).2, b < 256 := by
    intro b hb
    rcases List.mem_append.mp hb with h | h
    · exact hct b h
    · exact htag b h
  have hiv2 := b64_roundtrip iv hiv
  have hdata := b64_roundtrip ((A.enc key iv m).1 ++ (A.enc key iv m).2) hcomb
  have hlen : ((A.enc key iv m).1 ++ (A.enc key iv m).2).length - 16
      = (A.enc key iv m).1.length := by
    simp [A.enc_tag_len]
  simp only [encrypt, decrypt, String.toList, hiv2, hdata, Option.bind_eq_bind,
    Option.some_bind]
  rw [hlen, List.take_left, List.drop_left]
  exact A.dec_enc key iv m

/-- Witness for C4 at concrete inputs: the empty message and a multi-byte
UTF-8 message round-trip under a concrete AEAD instance. -/
theorem message_roundtrip_witness :
    decrypt trivAEAD [] (encrypt trivAEAD [] (List.replicate 12 7) []).data
        (encrypt trivAEAD [] (List.replicate 12 7) []).iv = some []
    ∧ decrypt trivAEAD [] (encrypt trivAEAD [] (List.replicate 12 7) [226, 130, 172]).data
        (encrypt trivAEAD [] (List.replicate 12 7) [226, 130, 172]).iv = some [226, 130, 172] :=
  ⟨message_roundtrip trivAEAD [] (List.replicate 12 7) [] (by decide) (by decide),
   message_roundtrip trivAEAD [] (List.replicate 12 7) [226, 130, 172] (by decide) (by decide)⟩

/-! ## Key configuration (server/index.js lines 41-43) -/

/-- JavaScript truthiness of an optional string: undefined and the empty
string are falsy, as in the expression (process.env.X or a default). -/
def truthy (s : Option String) : Option String :=
  match s with
  | some str => if str = "" then none else some str
  | none => none

/-- The chain .padEnd(32).slice(0, 32) applied to the configured key. -/
def padEnd32slice (s : String) : String :=
  String.mk ((s.data ++ List.replicate (32 - s.length) ' ').take 32)

/-- ENCRYPTION_KEY of server/index.js: the environment value, defaulted,
then padded and truncated to 32 characters.  The definition is total: no
length check exists and startup never fails on a misconfigured key. -/
def ENCRYPTION_KEY (envKey : Option String) : String :=
  padEnd32slice ((truthy envKey).getD "dev_key_32_bytes_long_for_demo!!")

set_option maxRecDepth 4000 in
/-- C1 counterexample: a 5-byte configured key is silently right-padded
with spaces to 32 bytes and a 40-byte key is silently truncated; startup
proceeds with the normalized key instead of being rejected. -/
theorem encryption_key_not_rejected_counterexample :
    ENCRYPTION_KEY (some "short") = "short                           "
    ∧ (ENCRYPTION_KEY (some "short")).length = 32
    ∧ ENCRYPTION_KEY (some "0123456789012345678901234567890123456789")
        = "01234567890123456789012345678901" := by
  refine ⟨by decide, by decide, by decide⟩

/-- C1 amended: whatever key is configured, startup accepts it and derives
a working key of exactly 32 bytes by space-padding or truncation. -/
theorem encryption_key_always_32 (envKey : Option String) :
    (ENCRYPTION_KEY envKey).length = 32 := by
  unfold ENCRYPTION_KEY padEnd32slice
  have hlen : ∀ s : String, (String.mk ((s.data ++ List.replicate (32 - s.length) ' ').take 32)).length = 32 := by
    intro s
    show ((s.data ++ List.replicate (32 - s.length) ' ').take 32).length = 32
    rw [List.length_take, List.length_append, List.length_replicate]
    have hdl : s.length = s.data.length := rfl
    omega
  exact hlen _

/-! ## Chat identity derivation (makeChatId, client ChatPage) -/

/-- makeChatId of the client: string comparison puts the smaller id first,
then embeds both in a template.  It is a pure function of its two
arguments. -/
def makeChatId (a b : String) : String :=
  if a < b then "chat_" ++ a ++ "_" ++ b else "chat_" ++ b ++ "_" ++ a

/-- C5: makeChatId is symmetric in its arguments, and the diagonal maps to
the one consistent value embedding the id twice; being a Lean function of
its arguments, it is pure and deterministic. -/
theorem makeChatId_symmetric (a b : String) :
    makeChatId a b = makeChatId b a
    ∧ makeChatId a a = "chat_" ++ a ++ "_" ++ a := by
  constructor
  · unfold makeChatId
    rcases lt_trichotomy a b with h | h | h
    · rw [if_pos h, if_neg (asymm h)]
    · subst h; rfl
    · rw [if_neg (asymm h), if_pos h]
  · unfold makeChatId
    rw [if_neg (lt_irrefl a)]

/-! ## Users, login (POST /api/login, server/index.js lines 149-170) -/

/-- A row of the users table. -/
structure UserRec where
  id : Nat
  username : String
  email : Option String
  password_hash : String
deriving DecidableEq

/-- The public part of a user, as placed in responses and tokens. -/
structure SafeUser where
  id : Nat
  username : String
  email : Option String
deriving DecidableEq

/-- SELECT ... WHERE username=$1 OR email=$1 LIMIT 1 (also the mongoose
findOne on the same disjunction): first matching row. -/
def findByIdentifier (users : List UserRec) (ident : String) : Option UserRec :=
  users.find? (fun u => u.username == ident || u.email == some ident)

/-- The JavaScript expression (a or b) over request fields followed by a
falsiness check, as in (usernameOrEmail or username). -/
def jsIdent (a b : Option String) : Option String :=
  match truthy a with
  | some s => some s
  | none => truthy b

/-- POST /api/login.  bcrypt.compare is the external collaborator verify.
Token issuance (jwt.sign) happens only after both checks pass and does not
affect the failure responses, so the result carries the safe user. -/
def login (verify : String → String → Bool) (users : List UserRec)
    (usernameOrEmail username password : Option String) :
    Except (Nat × String) SafeUser :=
  match jsIdent usernameOrEmail username, truthy password with
  | some identifier, some pw =>
    (match findByIdentifier users identifier with
     | none => .error (400, "Invalid credentials")
     | some u =>
        if verify pw u.password_hash then .ok ⟨u.id, u.username, u.email⟩
        else .error (400, "Invalid credentials"))
  | _, _ => .error (400, "username/email and password required")

/-- C9: with identifier and password present, the response when no user
matches the identifier and the response when a user matches but the
password does not verify are the same value: status 400 with message
Invalid credentials.  The two failure causes are indistinguishable. -/
theorem login_failures_indistinguishable (verify : String → String → Bool)
    (users : List UserRec) (uoe un pw : Option String) (i p : String)
    (hid : jsIdent uoe un = some i) (hpw : truthy pw = some p) :
    (findByIdentifier users i = none →
      login verify users uoe un pw = .error (400, "Invalid credentials"))
    ∧ (∀ u, findByIdentifier users i = some u → verify p u.password_hash = false →
      login verify users uoe un pw = .error (400, "Invalid credentials")) := by
  constructor
  · intro hnone
    simp [login, hid, hpw, hnone]
  · intro u hu hverify
    simp [login, hid, hpw, hu, hverify]

/-- A concrete password verifier for evaluating the handlers. -/
def eqVerify : String → String → Bool := fun pw h => pw == h

/-- A concrete users table for evaluating the handlers. -/
def usersW : List UserRec :=
  [⟨1, "alice", none, "ha"⟩, ⟨2, "bob", none, "hb"⟩]

/-- Witness for C9: an unknown identifier and a wrong password produce the
very same response on a concrete table. -/
theorem login_failures_indistinguishable_witness :
    login eqVerify usersW (some "carol") none (some "x")
        = .error (400, "Invalid credentials")
    ∧ login eqVerify usersW (some "alice") none (some "wrong")
        = .error (400, "Invalid credentials") := by
  refine ⟨(login_failures_indistinguishable eqVerify usersW (some "carol") none
      (some "x") "carol" "x" (by decide) (by decide)).1 (by decide), ?_⟩
  exact (login_failures_indistinguishable eqVerify usersW (some "alice") none
      (some "wrong") "alice" "wrong" (by decide) (by decide)).2
    ⟨1, "alice", none, "ha"⟩ (by decide) (by decide)

/-! ## Friends (POST /api/friends/add, both backends) -/

/-- INSERT ... ON CONFLICT (user_id, friend_id) DO NOTHING on the friends
table with its unique constraint. -/
def pgInsertEdge (t : List (Nat × Nat)) (e : Nat × Nat) : List (Nat × Nat) :=
  if e ∈ t then t else t ++ [e]

/-- POST /api/friends/add of the Postgres backend: resolve the identifier,
reject self-add, then insert both directed edges, each ignoring conflicts.
Returns the response together with the new friends table. -/
def pgAddFriend (users : List UserRec) (t : List (Nat × Nat)) (callerId : Nat)
    (identifier username : Option String) :
    Except (Nat × String) (Nat × String) × List (Nat × Nat) :=
  match jsIdent identifier username with
  | none => (.error (400, "username or email required"), t)
  | some ident =>
    match findByIdentifier users ident with
    | none => (.error (404, "User not found"), t)
    | some f =>
      if f.id = callerId then (.error (400, "Cannot add yourself"), t)
      else (.ok (f.id, f.username),
            pgInsertEdge (pgInsertEdge t (callerId, f.id)) (f.id, callerId))

/-- POST /api/friends/add of the MongoDB backend: same resolution, but an
existing (caller, friend) document makes the call fail with Already
friends; otherwise both edge documents are inserted without any
uniqueness constraint. -/
def mongoAddFriend (users : List UserRec) (t : List (Nat × Nat)) (callerId : Nat)
    (identifier username : Option String) :
    Except (Nat × String) (Nat × String) × List (Nat × Nat) :=
  match jsIdent identifier username with
  | none => (.error (400, "username or email required"), t)
  | some ident =>
    match findByIdentifier users ident with
    | none => (.error (404, "User not found"), t)
    | some f =>
      if f.id = callerId then (.error (400, "Cannot add yourself"), t)
      else if (callerId, f.id) ∈ t then (.error (400, "Already friends"), t)
      else (.ok (f.id, f.username), t ++ [(callerId, f.id), (f.id, callerId)])

instance {ε α : Type _} [DecidableEq ε] [DecidableEq α] : DecidableEq (Except ε α) :=
  fun x y =>
    match x, y with
    | .ok a, .ok b => if h : a = b then .isTrue (by rw [h]) else .isFalse (by simp [h])
    | .error a, .error b => if h : a = b then .isTrue (by rw [h]) else .isFalse (by simp [h])
    | .ok _, .error _ => .isFalse (by simp)
    | .error _, .ok _ => .isFalse (by simp)

/-- C3 counterexample: in the MongoDB backend, the second addFriend call
with the same pair is rejected with 400 Already friends instead of being
a no-op success. -/
theorem addFriend_second_call_errors_counterexample :
    mongoAddFriend usersW [] 1 (some "bob") none
      = (.ok (2, "bob"), [(1, 2), (2, 1)])
    ∧ mongoAddFriend usersW [(1, 2), (2, 1)] 1 (some "bob") none
      = (.error (400, "Already friends"), [(1, 2), (2, 1)]) := by
  refine ⟨by decide, by decide⟩

/-- C3 amended: in the Postgres backend, addFriend twice with the same
pair succeeds both times, the second call is a no-op, and exactly the two
edges (A,B) and (B,A) are present, never four; in the MongoDB backend the
first call inserts the same two edges but the second call fails with 400
Already friends, leaving the table unchanged. -/
theorem addFriend_twice (users : List UserRec) (t : List (Nat × Nat))
    (caller : Nat) (idf un : Option String) (i : String) (f : UserRec)
    (hid : jsIdent idf un = some i)
    (hf : findByIdentifier users i = some f)
    (hne : f.id ≠ caller)
    (h1 : (caller, f.id) ∉ t) (h2 : (f.id, caller) ∉ t) :
    (pgAddFriend users t caller idf un).1 = .ok (f.id, f.username)
    ∧ (pgAddFriend users t caller idf un).2 = t ++ [(caller, f.id), (f.id, caller)]
    ∧ pgAddFriend users (pgAddFriend users t caller idf un).2 caller idf un
        = (.ok (f.id, f.username), (pgAddFriend users t caller idf un).2)
    ∧ (pgAddFriend users t caller idf un).2.count (caller, f.id) = 1
    ∧ (pgAddFriend users t caller idf un).2.count (f.id, caller) = 1
    ∧ (mongoAddFriend users t caller idf un).2 = t ++ [(caller, f.id), (f.id, caller)]
    ∧ (mongoAddFriend users (mongoAddFriend users t caller idf un).2 caller idf un).1
        = .error (400, "Already friends")
    ∧ (mongoAddFriend users (mongoAddFriend users t caller idf un).2 caller idf un).2
        = (mongoAddFriend users t caller idf un).2 := by
  have hpair : (f.id, caller) ≠ (caller, f.id) := by
    intro hcontra
    exact hne (congrArg Prod.fst hcontra)
  have hmem1 : (f.id, caller) ∉ t ++ [(caller, f.id)] := by
    intro hcontra
    rcases List.mem_append.mp hcontra with h | h
    · exact h2 h
    · exact hpair (List.mem_singleton.mp h)
  have ht1 : pgAddFriend users t caller idf un
      = (.ok (f.id, f.username), t ++ [(caller, f.id), (f.id, caller)]) := by
    simp [pgAddFriend, hid, hf, hne, pgInsertEdge, h1, hmem1]
  have hmem2 : (caller, f.id) ∈ t ++ [(caller, f.id), (f.id, caller)] := by
    simp
  have hmem3 : (f.id, caller) ∈ t ++ [(caller, f.id), (f.id, caller)] := by
    simp
  have hcnt1 : (t ++ [(caller, f.id), (f.id, caller)]).count (caller, f.id) = 1 := by
    rw [List.count_append, List.count_eq_zero.mpr h1]
    simp [List.count_cons, hpair]
  have hcnt2 : (t ++ [(caller, f.id), (f.id, caller)]).count (f.id, caller) = 1 := by
    rw [List.count_append, List.count_eq_zero.mpr h2]
    simp [List.count_cons, Ne.symm hpair]
  have hm1 : mongoAddFriend users t caller idf un
      = (.ok (f.id, f.username), t ++ [(caller, f.id), (f.id, caller)]) := by
    simp [mongoAddFriend, hid, hf, hne, h1]
  refine ⟨by rw [ht1], by rw [ht1], ?_, by rw [ht1]; exact hcnt1, by rw [ht1]; exact hcnt2,
    by rw [hm1], ?_, ?_⟩
  · rw [ht1]
    simp [pgAddFriend, hid, hf, hne, pgInsertEdge, hmem2, hmem3]
  · rw [hm1]
    simp [mongoAddFriend, hid, hf, hne, hmem2]
  · rw [hm1]
    simp [mongoAddFriend, hid, hf, hne, hmem2]

/-- Witness for C3 at a concrete table: the Postgres second call is a
no-op success with exactly the two edges, and the MongoDB second call is
the Already friends error. -/
theorem addFriend_twice_witness :
    (pgAddFriend usersW [] 1 (some "bob") none).2 = [(1, 2), (2, 1)]
    ∧ (mongoAddFriend usersW (mongoAddFriend usersW [] 1 (some "bob") none).2
        1 (some "bob") none).1 = .error (400, "Already friends") := by
  obtain ⟨hA, hB, hC, hD, hE, hF, hG, hH⟩ :=
    addFriend_twice usersW [] 1 (some "bob") none "bob" ⟨2, "bob", none, "hb"⟩
      (by decide) (by decide) (by decide) (by decide) (by decide)
  exact ⟨by simpa using hB, hG⟩

/-! ## Message history (GET /api/messages, both backends) -/

/-- A row of the messages table. -/
structure MsgRow where
  id : Nat
  chat_id : String
  sender_id : Nat
  content : String
  iv : String
  created_at : Nat
deriving DecidableEq

/-- A decrypted message as returned to the client. -/
structure OutMsg where
  id : Nat
  chat_id : String
  sender_id : Nat
  content : List Nat
  created_at : Nat
deriving DecidableEq

/-- The comparison of ORDER BY created_at ASC. -/
def createdLe (a b : MsgRow) : Prop := a.created_at ≤ b.created_at

instance : DecidableRel createdLe := fun a b => Nat.decLe a.created_at b.created_at

instance : IsTotal MsgRow createdLe := ⟨fun a b => Nat.le_total a.created_at b.created_at⟩

instance : IsTrans MsgRow createdLe := ⟨fun _ _ _ => Nat.le_trans⟩

/-- SELECT ... WHERE chat_id = $1 ORDER BY created_at ASC (and the
equivalent mongoose find().sort on createdAt). -/
def listByChatOrdered (db : List MsgRow) (chatId : String) : List MsgRow :=
  List.insertionSort createdLe (db.filter (fun r => r.chat_id == chatId))

/-- rows.map(...) where the body can throw: the first failure aborts the
whole mapping, as a thrown exception aborts Array.prototype.map. -/
def tryMapAll {α β : Type _} (f : α → Option β) : List α → Option (List β)
  | [] => some []
  | x :: xs => do
      let y ← f x
      let ys ← tryMapAll f xs
      some (y :: ys)

/-- The response object built per row by the GET handler. -/
def mkOut (r : MsgRow) (pt : List Nat) : OutMsg :=
  ⟨r.id, r.chat_id, r.sender_id, pt, r.created_at⟩

/-- GET /api/messages: fetch the rows of the chat ordered by creation
timestamp, decrypt each inside the shared try/catch; a thrown decryption
error is caught by the handler and answered with 500. -/
def getMessages (A : AEAD) (key : List Nat) (db : List MsgRow)
    (chatId : Option String) : Except (Nat × String) (List OutMsg) :=
  match truthy chatId with
  | none => .error (400, "chatId query required")
  | some cid =>
    match tryMapAll (fun r => (decrypt A key r.content r.iv).map (mkOut r))
        (listByChatOrdered db cid) with
    | none => .error (500, "Internal server error")
    | some msgs => .ok msgs

theorem tryMapAll_eq_none {α β : Type _} (f : α → Option β) (l : List α) (x : α)
    (hx : x ∈ l) (hf : f x = none) : tryMapAll f l = none := by
  induction l with
  | nil => cases hx
  | cons a t ih =>
    rcases List.mem_cons.mp hx with rfl | hmem
    · simp [tryMapAll, hf]
    · cases hfa : f a <;> simp [tryMapAll, hfa, ih hmem]

theorem tryMapAll_mem_inv {α β : Type _} (f : α → Option β) :
    ∀ (l : List α) (l2 : List β), tryMapAll f l = some l2 →
      ∀ y ∈ l2, ∃ x ∈ l, f x = some y := by
  intro l
  induction l with
  | nil =>
    intro l2 h y hy
    simp [tryMapAll] at h
    subst h
    cases hy
  | cons a t ih =>
    intro l2 h y hy
    cases hfa : f a with
    | none => simp [tryMapAll, hfa] at h
    | some b =>
      cases htl : tryMapAll f t with
      | none => simp [tryMapAll, hfa, htl] at h
      | some bs =>
        simp [tryMapAll, hfa, htl] at h
        subst h
        rcases List.mem_cons.mp hy with rfl | hy2
        · exact ⟨a, List.mem_cons_self a t, hfa⟩
        · obtain ⟨x, hxmem, hfx⟩ := ih bs htl y hy2
          exact ⟨x, List.mem_cons_of_mem a hxmem, hfx⟩

theorem tryMapAll_pairwise {α β : Type _} (f : α → Option β)
    (R : α → α → Prop) (S : β → β → Prop)
    (hRS : ∀ x y x2 y2, f x = some x2 → f y = some y2 → R x y → S x2 y2) :
    ∀ (l : List α) (l2 : List β), tryMapAll f l = some l2 →
      l.Pairwise R → l2.Pairwise S := by
  intro l
  induction l with
  | nil =>
    intro l2 h _
    simp [tryMapAll] at h
    subst h
    exact List.Pairwise.nil
  | cons a t ih =>
    intro l2 h hp
    cases hfa : f a with
    | none => simp [tryMapAll, hfa] at h
    | some b =>
      cases htl : tryMapAll f t with
      | none => simp [tryMapAll, hfa, htl] at h
      | some bs =>
        simp [tryMapAll, hfa, htl] at h
        subst h
        rcases List.pairwise_cons.mp hp with ⟨hhead, htail⟩
        refine List.pairwise_cons.mpr ⟨?_, ih bs htl htail⟩
        intro y hy
        obtain ⟨x, hxmem, hfx⟩ := tryMapAll_mem_inv f t bs htl y hy
        exact hRS a x b y hfa hfx (hhead x hxmem)

/-- C2 counterexample: with one decryptable record and one corrupted
record in the same chat, the whole history fetch answers 500 instead of
returning the decryptable record; yet that record alone decrypts fine. -/
theorem history_not_skipping_counterexample :
    getMessages trivAEAD []
      [⟨1, "c", 1, String.mk (b64encode ([104, 105] ++ List.replicate 16 0)),
          String.mk (b64encode (List.replicate 12 0)), 5⟩,
       ⟨2, "c", 2, "####", "AAAA", 6⟩] (some "c")
      = .error (500, "Internal server error")
    ∧ decrypt trivAEAD [] (String.mk (b64encode ([104, 105] ++ List.replicate 16 0)))
        (String.mk (b64encode (List.replicate 12 0))) = some [104, 105] := by
  refine ⟨by decide, by decide⟩

/-- C2 amended: whenever any record of the requested chat fails to
decrypt, the whole history fetch fails with 500 Internal server error; no
other record of the conversation is returned. -/
theorem history_fails_whole_on_bad_record (A : AEAD) (key : List Nat)
    (db : List MsgRow) (cid : String) (r : MsgRow)
    (hcid : cid ≠ "")
    (hr : r ∈ listByChatOrdered db cid)
    (hfail : decrypt A key r.content r.iv = none) :
    getMessages A key db (some cid) = .error (500, "Internal server error") := by
  have hnone : tryMapAll (fun r => (decrypt A key r.content r.iv).map (mkOut r))
      (listByChatOrdered db cid) = none :=
    tryMapAll_eq_none _ _ r hr (by simp [hfail])
  simp [getMessages, truthy, hcid, hnone]

/-- Witness for C2 at a concrete database with a corrupted record. -/
theorem history_fails_whole_witness :
    getMessages trivAEAD []
      [⟨1, "c", 1, String.mk (b64encode ([104] ++ List.replicate 16 0)),
          String.mk (b64encode (List.replicate 12 0)), 5⟩,
       ⟨2, "c", 2, "!!!!", "AAAA", 6⟩] (some "c")
      = .error (500, "Internal server error") :=
  history_fails_whole_on_bad_record trivAEAD []
    [⟨1, "c", 1, String.mk (b64encode ([104] ++ List.replicate 16 0)),
        String.mk (b64encode (List.replicate 12 0)), 5⟩,
     ⟨2, "c", 2, "!!!!", "AAAA", 6⟩] "c"
    ⟨2, "c", 2, "!!!!", "AAAA", 6⟩ (by decide) (by decide) (by decide)

/-- C8 counterexample: two decryptable records whose identifier order is
the reverse of their timestamp order come back ordered [2, 1] by id, so
the fetch is ordered by creation timestamp, not by the identifier. -/
theorem history_order_counterexample :
    (getMessages trivAEAD []
      [⟨1, "c", 1, String.mk (b64encode ([105] ++ List.replicate 16 0)),
          String.mk (b64encode (List.replicate 12 0)), 10⟩,
       ⟨2, "c", 1, String.mk (b64encode ([104] ++ List.replicate 16 0)),
          String.mk (b64encode (List.replicate 12 0)), 5⟩] (some "c")).map
      (fun l => l.map OutMsg.id) = .ok [2, 1]
    ∧ ¬ List.Sorted (· ≤ ·) [2, 1] := by
  refine ⟨by decide, by decide⟩

/-- C8 amended: history returns the chat records ordered ascending by the
creation timestamp; the timestamp, not the assigned identifier, is the
ordering key used by both backends. -/
theorem history_sorted_by_created_at (A : AEAD) (key : List Nat)
    (db : List MsgRow) (cid : String) (msgs : List OutMsg)
    (h : getMessages A key db (some cid) = .ok msgs) :
    msgs.Pairwise (fun a b => a.created_at ≤ b.created_at) := by
  unfold getMessages at h
  cases hcid : truthy (some cid) with
  | none => rw [hcid] at h; simp at h
  | some cid2 =>
    rw [hcid] at h
    dsimp only at h
    cases htm : tryMapAll (fun r => (decrypt A key r.content r.iv).map (mkOut r))
        (listByChatOrdered db cid2) with
    | none => rw [htm] at h; simp at h
    | some l =>
      rw [htm] at h
      simp only [Except.ok.injEq] at h
      subst h
      refine tryMapAll_pairwise _ createdLe (fun a b => a.created_at ≤ b.created_at)
        ?_ _ _ htm ?_
      · intro x y x2 y2 hx hy hR
        rcases Option.map_eq_some'.mp hx with ⟨ptx, hdx, hmx⟩
        rcases Option.map_eq_some'.mp hy with ⟨pty, hdy, hmy⟩
        subst hmx
        subst hmy
        exact hR
      · exact List.sorted_insertionSort createdLe _

/-- Witness for C8: the concrete output of a two-record chat is sorted by
its created_at field. -/
theorem history_sorted_witness :
    List.Pairwise (fun a b => OutMsg.created_at a ≤ OutMsg.created_at b)
      [⟨2, "c", 1, [104], 5⟩, ⟨1, "c", 1, [105], 10⟩] :=
  history_sorted_by_created_at trivAEAD []
    [⟨1, "c", 1, String.mk (b64encode ([105] ++ List.replicate 16 0)),
        String.mk (b64encode (List.replicate 12 0)), 10⟩,
     ⟨2, "c", 1, String.mk (b64encode ([104] ++ List.replicate 16 0)),
        String.mk (b64encode (List.replicate 12 0)), 5⟩] "c"
    [⟨2, "c", 1, [104], 5⟩, ⟨1, "c", 1, [105], 10⟩] (by decide)

/-! ## Fan-out hub (WebSocket handling, server/index.js lines 277-307)

The subs Map is a list of connection entries; each entry carries the key
identity of its ws object (a numeric label: distinct sockets have
distinct labels, so the map keys are nodup), its subscription Set and the
openness of its transport (ws.readyState === ws.OPEN). -/

structure Conn where
  id : Nat
  subs : List String
  isOpen : Bool
deriving DecidableEq

/-- broadcastToChat: one send per registered entry whose subscription set
has the chat id and whose transport is open; the result lists the ids of
the connections that receive the payload. -/
def broadcastToChat (conns : List Conn) (chatId : String) : List Nat :=
  (conns.filter (fun e => decide (chatId ∈ e.subs) && e.isOpen)).map Conn.id

theorem mem_ids_of_mem_filter_ids (p : Conn → Bool) (l : List Conn) (n : Nat)
    (h : n ∈ (l.filter p).map Conn.id) : n ∈ l.map Conn.id := by
  obtain ⟨e, he, rfl⟩ := List.mem_map.mp h
  exact List.mem_map_of_mem Conn.id (List.mem_of_mem_filter he)

theorem count_one_of_nodup_ids (p : Conn → Bool) :
    ∀ (l : List Conn) (c : Conn), (l.map Conn.id).Nodup → c ∈ l → p c = true →
      ((l.filter p).map Conn.id).count c.id = 1 := by
  intro l
  induction l with
  | nil => intro c _ hc; cases hc
  | cons e t ih =>
    intro c hnodup hc hp
    rw [List.map_cons, List.nodup_cons] at hnodup
    obtain ⟨hnotin, hnd⟩ := hnodup
    rcases List.mem_cons.mp hc with rfl | hct
    · rw [List.filter_cons_of_pos hp, List.map_cons, List.count_cons_self]
      rw [List.count_eq_zero.mpr (fun hmem => hnotin (mem_ids_of_mem_filter_ids p t c.id hmem))]
    · have hne : e.id ≠ c.id := fun heq => hnotin (heq ▸ List.mem_map_of_mem Conn.id hct)
      cases hpe : p e with
      | true =>
        rw [List.filter_cons_of_pos hpe, List.map_cons,
          List.count_cons_of_ne (Ne.symm hne), ih c hnd hct hp]
      | false =>
        rw [List.filter_cons_of_neg (by simp [hpe]), ih c hnd hct hp]

/-- C6: a registered connection subscribed to chat X with an open
transport receives exactly one send per broadcast to X; a broadcast to a
chat outside its subscription set delivers nothing to it, and a
connection whose transport is not open receives nothing. -/
theorem broadcast_delivery (conns : List Conn) (c : Conn) (X Y : String)
    (hreg : c ∈ conns) (hnodup : (conns.map Conn.id).Nodup) :
    (c.isOpen = true → X ∈ c.subs → (broadcastToChat conns X).count c.id = 1)
    ∧ (Y ∉ c.subs → c.id ∉ broadcastToChat conns Y)
    ∧ (c.isOpen = false → c.id ∉ broadcastToChat conns X) := by
  refine ⟨?_, ?_, ?_⟩
  · intro hopen hsub
    exact count_one_of_nodup_ids _ conns c hnodup hreg (by simp [hsub, hopen])
  · intro hnsub hmem
    obtain ⟨e, hef, heq⟩ := List.mem_map.mp hmem
    obtain ⟨hemem, hep⟩ := List.mem_filter.mp hef
    have : e = c := List.inj_on_of_nodup_map hnodup hemem hreg heq
    subst this
    simp at hep
    exact hnsub hep.1
  · intro hclosed hmem
    obtain ⟨e, hef, heq⟩ := List.mem_map.mp hmem
    obtain ⟨hemem, hep⟩ := List.mem_filter.mp hef
    have : e = c := List.inj_on_of_nodup_map hnodup hemem hreg heq
    subst this
    simp [hclosed] at hep

/-- Witness for C6 on a concrete hub state. -/
theorem broadcast_delivery_witness :
    (broadcastToChat [⟨1, ["a"], true⟩, ⟨2, ["b"], false⟩] "a").count 1 = 1 :=
  (broadcast_delivery [⟨1, ["a"], true⟩, ⟨2, ["b"], false⟩] ⟨1, ["a"], true⟩ "a" "b"
    (by decide) (by decide)).1 (by decide) (by decide)

/-- The triggers that mutate the subs Map: connection open, subscribe and
unsubscribe frames, connection close, and the transport state changing
underneath (readyState). -/
inductive HubEvent where
  | connect (cid : Nat)
  | subscribe (cid : Nat) (chat : String)
  | unsubscribe (cid : Nat) (chat : String)
  | disconnect (cid : Nat)
  | transport (cid : Nat) (b : Bool)
deriving DecidableEq

/-- One step of the connection handler of server/index.js: connect
registers an empty Set; subscribe adds to the Set of that entry (Set.add,
no duplicates); unsubscribe deletes; close removes the whole entry. -/
def hubStep (conns : List Conn) : HubEvent → List Conn
  | .connect c => conns.filter (fun e => decide (e.id ≠ c)) ++ [⟨c, [], true⟩]
  | .subscribe c x => conns.map (fun e =>
      if e.id = c then
        { e with subs := if x ∈ e.subs then e.subs else e.subs ++ [x] }
      else e)
  | .unsubscribe c x => conns.map (fun e =>
      if e.id = c then { e with subs := e.subs.filter (fun s => decide (s ≠ x)) } else e)
  | .disconnect c => conns.filter (fun e => decide (e.id ≠ c))
  | .transport c b => conns.map (fun e => if e.id = c then { e with isOpen := b } else e)

/-- No entry of connection c is subscribed to chat x. -/
def NoSubTo (conns : List Conn) (c : Nat) (x : String) : Prop :=
  ∀ e ∈ conns, e.id = c → x ∉ e.subs

theorem noSubTo_unsubscribe (conns : List Conn) (c : Nat) (x : String) :
    NoSubTo (hubStep conns (.unsubscribe c x)) c x := by
  intro e' he' hid hx
  obtain ⟨e, hemem, rfl⟩ := List.mem_map.mp he'
  by_cases h : e.id = c
  · simp only [h, if_true] at hx
    obtain ⟨_, hne⟩ := List.mem_filter.mp hx
    simp at hne
  · simp only [h, if_false] at hid

theorem noSubTo_disconnect (conns : List Conn) (c : Nat) (x : String) :
    NoSubTo (hubStep conns (.disconnect c)) c x := by
  intro e' he' hid _
  obtain ⟨_, hne⟩ := List.mem_filter.mp he'
  simp at hne
  exact hne hid

theorem noSubTo_step (conns : List Conn) (c : Nat) (x : String) (ev : HubEvent)
    (h : NoSubTo conns c x) (hev : ev ≠ .subscribe c x) :
    NoSubTo (hubStep conns ev) c x := by
  cases ev with
  | connect c2 =>
    intro e' he' hid hx
    rcases List.mem_append.mp he' with hmem | hmem
    · obtain ⟨hmem2, _⟩ := List.mem_filter.mp hmem
      exact h e' hmem2 hid hx
    · rw [List.mem_singleton.mp hmem] at hx
      cases hx
  | subscribe c2 y =>
    intro e' he' hid hx
    obtain ⟨e, hemem, rfl⟩ := List.mem_map.mp he'
    by_cases hc : e.id = c2
    · simp only [hc, if_true] at hid hx
      have hcc : c2 = c := hid
      have hyx : y ≠ x := by
        intro hcontra
        exact hev (by rw [hcontra, hcc])
      by_cases hy : y ∈ e.subs
      · simp only [hy, if_true] at hx
        exact h e hemem (hc.trans hcc) hx
      · simp only [hy, if_false] at hx
        rcases List.mem_append.mp hx with hmem | hmem
        · exact h e hemem (hc.trans hcc) hmem
        · exact hyx (List.mem_singleton.mp hmem).symm
    · simp only [hc, if_false] at hid hx
      exact h e hemem hid hx
  | unsubscribe c2 y =>
    intro e' he' hid hx
    obtain ⟨e, hemem, rfl⟩ := List.mem_map.mp he'
    by_cases hc : e.id = c2
    · simp only [hc, if_true] at hid hx
      exact h e hemem (hc.trans hid) (List.mem_of_mem_filter hx)
    · simp only [hc, if_false] at hid hx
      exact h e hemem hid hx
  | disconnect c2 =>
    intro e' he' hid hx
    exact h e' (List.mem_of_mem_filter he') hid hx
  | transport c2 b =>
    intro e' he' hid hx
    obtain ⟨e, hemem, rfl⟩ := List.mem_map.mp he'
    by_cases hc : e.id = c2
    · simp only [hc, if_true] at hid hx
      exact h e hemem (hc.trans hid) hx
    · simp only [hc, if_false] at hid hx
      exact h e hemem hid hx

theorem noSubTo_no_delivery (conns : List Conn) (c : Nat) (x : String)
    (h : NoSubTo conns c x) : c ∉ broadcastToChat conns x := by
  intro hmem
  obtain ⟨e, hef, heq⟩ := List.mem_map.mp hmem
  obtain ⟨hemem, hep⟩ := List.mem_filter.mp hef
  simp at hep
  exact h e hemem heq hep.1

/-- C7: once unsubscribe(C, X) is processed, or C has disconnected, no
sequence of later hub events that does not contain a subscribe(C, X)
frame can lead to a state whose broadcast on X delivers to C. -/
theorem after_unsubscribe_or_disconnect_silent (conns : List Conn)
    (evs : List HubEvent) (c : Nat) (x : String) (e0 : HubEvent)
    (h0 : e0 = .unsubscribe c x ∨ e0 = .disconnect c)
    (hevs : ∀ ev ∈ evs, ev ≠ .subscribe c x) :
    c ∉ broadcastToChat (evs.foldl hubStep (hubStep conns e0)) x := by
  have hbase : NoSubTo (hubStep conns e0) c x := by
    rcases h0 with rfl | rfl
    · exact noSubTo_unsubscribe conns c x
    · exact noSubTo_disconnect conns c x
  have hfold : ∀ (l : List HubEvent) (st : List Conn), NoSubTo st c x →
      (∀ ev ∈ l, ev ≠ .subscribe c x) → NoSubTo (l.foldl hubStep st) c x := by
    intro l
    induction l with
    | nil => intro st hst _; exact hst
    | cons ev t ih =>
      intro st hst hl
      exact ih (hubStep st ev)
        (noSubTo_step st c x ev hst (hl ev (List.mem_cons_self ev t)))
        (fun e he => hl e (List.mem_cons_of_mem ev he))
  exact noSubTo_no_delivery _ c x (hfold evs (hubStep conns e0) hbase hevs)

/-- Witness for C7: after an unsubscribe, later connects, foreign
subscribes and a transport change still deliver nothing to the
unsubscribed connection. -/
theorem after_unsubscribe_silent_witness :
    1 ∉ broadcastToChat
      (List.foldl hubStep (hubStep [⟨1, ["a"], true⟩] (.unsubscribe 1 "a"))
        [.connect 2, .subscribe 2 "a", .subscribe 1 "b", .transport 1 true]) "a" :=
  after_unsubscribe_or_disconnect_silent [⟨1, ["a"], true⟩]
    [.connect 2, .subscribe 2 "a", .subscribe 1 "b", .transport 1 true] 1 "a"
    (.unsubscribe 1 "a") (Or.inl rfl) (by decide)

/-- C10: processing the same subscribe frame twice leaves the hub state
identical to processing it once (the subscription set is a set), and a
broadcast on that chat then delivers exactly one copy to the connection. -/
theorem subscribe_idempotent (conns : List Conn) (c : Nat) (x : String) (e : Conn)
    (he : e ∈ conns) (hid : e.id = c) (hopen : e.isOpen = true)
    (hnodup : (conns.map Conn.id).Nodup) :
    hubStep (hubStep conns (.subscribe c x)) (.subscribe c x)
      = hubStep conns (.subscribe c x)
    ∧ (broadcastToChat (hubStep conns (.subscribe c x)) x).count c = 1 := by
  constructor
  · simp only [hubStep, List.map_map]
    apply List.map_congr_left
    intro a _
    by_cases h : a.id = c
    · by_cases hx : x ∈ a.subs
      · simp [Function.comp, h, hx]
      · simp [Function.comp, h, hx]
    · simp [Function.comp, h]
  · have hidpres : (hubStep conns (.subscribe c x)).map Conn.id = conns.map Conn.id := by
      simp only [hubStep, List.map_map]
      apply List.map_congr_left
      intro a _
      by_cases h : a.id = c
      · simp [Function.comp, h]
      · simp [Function.comp, h]
    set f := fun e : Conn =>
      if e.id = c then
        { e with subs := if x ∈ e.subs then e.subs else e.subs ++ [x] }
      else e with hf
    have hfe : f e ∈ hubStep conns (.subscribe c x) := by
      simp only [hubStep]
      exact List.mem_map_of_mem f he
    have hfeid : (f e).id = c := by
      simp only [hf, hid, if_true]
    have hfesub : x ∈ (f e).subs := by
      simp only [hf, hid, if_true]
      by_cases hx : x ∈ e.subs
      · simp [hx]
      · simp [hx]
    have hfeopen : (f e).isOpen = true := by
      simp only [hf, hid, if_true]
      exact hopen
    have := count_one_of_nodup_ids (fun e => decide (x ∈ e.subs) && e.isOpen)
      (hubStep conns (.subscribe c x)) (f e) (by rw [hidpres]; exact hnodup) hfe
      (by simp [hfesub, hfeopen])
    rw [hfeid] at this
    exact this

/-- Witness for C10 on a concrete hub state. -/
theorem subscribe_idempotent_witness :
    hubStep (hubStep [⟨1, [], true⟩] (.subscribe 1 "a")) (.subscribe 1 "a")
      = hubStep [⟨1, [], true⟩] (.subscribe 1 "a")
    ∧ (broadcastToChat (hubStep [⟨1, [], true⟩] (.subscribe 1 "a")) "a").count 1 = 1 :=
  subscribe_idempotent [⟨1, [], true⟩] 1 "a" ⟨1, [], true⟩
    (by decide) (by decide) (by decide) (by decide)

end SecureWhisper
